import Mathlib

/-!
Verification of the orthogonal-connector geometry core of
`reactflow-auto-layout` (`src/layout/edge/point.ts` and the edge drag
controller).  JavaScript numbers are embedded as exact rationals (`ℚ`);
`Math.floor` becomes `Rat.floor`.  Points, rectangles and handle positions
are translated structure-for-structure from the TypeScript source.
-/

namespace AutoLayout

/-- `Position` from reactflow: which side of a node a handle protrudes from. -/
inductive Position where
  | top
  | right
  | bottom
  | left
deriving DecidableEq

/-- `ControlPoint` from `point.ts`: `{id, x, y}`. -/
structure ControlPoint where
  id : String
  x : ℚ
  y : ℚ
deriving DecidableEq

/-- `NodeRect` from `point.ts`: `{x, y, width, height}`, `x,y` = top-left. -/
structure NodeRect where
  x : ℚ
  y : ℚ
  width : ℚ
  height : ℚ
deriving DecidableEq

/-- `RectSides` from `point.ts`. -/
structure RectSides where
  top : ℚ
  right : ℚ
  bottom : ℚ
  left : ℚ
deriving DecidableEq

/-- `HandlePosition` from `point.ts`: a `ControlPoint` together with a `Position`. -/
structure HandlePosition where
  id : String
  x : ℚ
  y : ℚ
  position : Position
deriving DecidableEq

/-- The underlying `ControlPoint` of a `HandlePosition` (the TS code passes the
handle object where a point is expected; only `id,x,y` are read). -/
def HandlePosition.point (h : HandlePosition) : ControlPoint :=
  ⟨h.id, h.x, h.y⟩

/-- `Math.floor`, as a map `ℚ → ℚ`. -/
def ratFloor (v : ℚ) : ℚ :=
  ((⌊v⌋ : ℤ) : ℚ)

/-- `isRectOverLapping` from `point.ts` (verbatim: it compares the stored
`x`/`y` fields, which are top-left corners). -/
def isRectOverLapping (rect1 rect2 : NodeRect) : Bool :=
  decide (|rect1.x - rect2.x| < (rect1.width + rect2.width) / 2 ∧
    |rect1.y - rect2.y| < (rect1.height + rect2.height) / 2)

/-- `getRectSides` from `point.ts`. -/
def getRectSides (box : NodeRect) : RectSides :=
  { top := box.y, right := box.x + box.width, bottom := box.y + box.height, left := box.x }

/-- `getRectVerticesFromSides` from `point.ts`; the TS version gives each vertex a
fresh `uuid()` id, which no geometric operation ever reads, so ids are `""` here.
Order: topLeft, topRight, bottomRight, bottomLeft. -/
def getRectVerticesFromSides (s : RectSides) : List ControlPoint :=
  [⟨"", s.left, s.top⟩, ⟨"", s.right, s.top⟩, ⟨"", s.right, s.bottom⟩, ⟨"", s.left, s.bottom⟩]

/-- `getRectVertices` from `point.ts`. -/
def getRectVertices (box : NodeRect) : List ControlPoint :=
  getRectVerticesFromSides (getRectSides box)

/-- `isInLine` from `point.ts`: whether `p` lies on the (axis-parallel) segment
`p1–p2`, i.e. shares an `x` or `y` coordinate with both ends and is between them
inclusively on the shared axis. -/
def isInLine (p p1 p2 : ControlPoint) : Bool :=
  decide ((p1.x = p.x ∧ p.x = p2.x ∧ min p1.y p2.y ≤ p.y ∧ p.y ≤ max p1.y p2.y) ∨
    (p1.y = p.y ∧ p.y = p2.y ∧ min p1.x p2.x ≤ p.x ∧ p.x ≤ max p1.x p2.x))

/-- `isSegmentsIntersected` from `point.ts`: parametric segment intersection;
parallel (zero cross product) segments report `false`. -/
def isSegmentsIntersected (p0 p1 p2 p3 : ControlPoint) : Bool :=
  let s1x := p1.x - p0.x
  let s1y := p1.y - p0.y
  let s2x := p3.x - p2.x
  let s2y := p3.y - p2.y
  if s1x * s2y - s1y * s2x = 0 then
    false
  else
    let denominator := -s2x * s1y + s1x * s2y
    let s := (s1y * (p2.x - p0.x) - s1x * (p2.y - p0.y)) / denominator
    let t := (s2x * (p0.y - p2.y) - s2y * (p0.x - p2.x)) / denominator
    decide (0 ≤ s ∧ s ≤ 1 ∧ 0 ≤ t ∧ t ≤ 1)

/-- `isSegmentCrossingRect` from `point.ts`: guarded only by
`width === 0 && height === 0`, then tests the four rect edges. -/
def isSegmentCrossingRect (p1 p2 : ControlPoint) (box : NodeRect) : Bool :=
  if box.width = 0 ∧ box.height = 0 then
    false
  else
    match getRectVertices box with
    | [topLeft, topRight, bottomRight, bottomLeft] =>
      isSegmentsIntersected p1 p2 topLeft topRight ||
      isSegmentsIntersected p1 p2 topRight bottomRight ||
      isSegmentsIntersected p1 p2 bottomRight bottomLeft ||
      isSegmentsIntersected p1 p2 bottomLeft topLeft
    | _ => false

/-- `findPosition` from `mergeClosePoints`: floor `v`, look for the first
already-registered representative within `threshold`, otherwise register
`⌊v⌋` as a new representative.  Returns (new representative list, chosen
representative). -/
def findPosition (threshold : ℚ) (ps : List ℚ) (v : ℚ) : List ℚ × ℚ :=
  let v' := ratFloor v
  match ps.find? (fun e => decide (|v' - e| < threshold)) with
  | some p => (ps, p)
  | none => (ps ++ [v'], v')

/-- The traversal inside `mergeClosePoints`: walk the points left to right,
threading the per-axis representative lists (`positions.x` / `positions.y`). -/
def mergeRun (threshold : ℚ) : List ℚ → List ℚ → List ControlPoint → List ControlPoint
  | _, _, [] => []
  | xs, ys, p :: ps =>
    let rx := findPosition threshold xs p.x
    let ry := findPosition threshold ys p.y
    { p with x := rx.2, y := ry.2 } :: mergeRun threshold rx.1 ry.1 ps

/-- `mergeClosePoints` from `point.ts` (the TS default `threshold = 4` is passed
explicitly at call sites here). -/
def mergeClosePoints (points : List ControlPoint) (threshold : ℚ) : List ControlPoint :=
  mergeRun threshold [] [] points

/-- `isEqualPoint` from `point.ts`. -/
def isEqualPoint (p1 p2 : ControlPoint) : Bool :=
  decide (p1.x = p2.x ∧ p1.y = p2.y)

/-- The `${x}-${y}` de-duplication key of `removeRepeatPoints`, as the exact
coordinate pair (the TS string key is injective on number pairs). -/
def pointKey (p : ControlPoint) : ℚ × ℚ :=
  (p.x, p.y)

/-- The `forEach` loop of `removeRepeatPoints`: every element except the final
one is kept iff its key is not yet in `seen` (and then added); the final
element is always kept. -/
def rrpGo (seen : List (ℚ × ℚ)) : List ControlPoint → List ControlPoint
  | [] => []
  | [p] => [p]
  | p :: q :: ps =>
    if pointKey p ∈ seen then rrpGo seen (q :: ps)
    else p :: rrpGo (seen ++ [pointKey p]) (q :: ps)

/-- `removeRepeatPoints` from `point.ts`: the seen-set is seeded with the LAST
point's key before the scan.  (The TS code reads `points[length-1]` up front,
so the empty list is outside its domain; it is mapped to `[]` here.) -/
def removeRepeatPoints (points : List ControlPoint) : List ControlPoint :=
  match points.getLast? with
  | none => []
  | some lastP => rrpGo [pointKey lastP] points

/-- The interior loop of `reducePoints`: `prev` is always the ORIGINAL
predecessor (`points[i-1]`), even when it was itself dropped. -/
def reduceGo (prev : ControlPoint) : List ControlPoint → List ControlPoint
  | [] => []
  | [lastP] => [lastP]
  | p :: next :: rest =>
    if isInLine p prev next then reduceGo p (next :: rest)
    else p :: reduceGo p (next :: rest)

/-- `reducePoints` from `point.ts`: keep `points[0]`, filter interior points
that sit on the segment between their original neighbours, always push
`points[length-1]` (for a singleton that first point is pushed twice). -/
def reducePoints : List ControlPoint → List ControlPoint
  | [] => []
  | [p] => [p, p]
  | p :: rest => p :: reduceGo p rest

/-- Modelled from the spec: `isHorizontalFromPosition` lives in
`src/layout/edge/edge.ts`, which is not part of the provided sources.  The
spec states that an anchor's side determines its axis — Left/Right anchors
attach along the x axis (horizontal), Top/Bottom along the y axis. -/
def isHorizontalFromPosition : Position → Bool
  | .left => true
  | .right => true
  | .top => false
  | .bottom => false

/-- The endpoint correction inside `optimizeInputPoints`:
`if (isHorizontalFromPosition(...)) point.x = handle.x else point.y = handle.y`. -/
def correctWithAnchor (h : HandlePosition) (q : ControlPoint) : ControlPoint :=
  if isHorizontalFromPosition h.position then { q with x := h.x } else { q with y := h.y }

/-- The re-numbering `edgePoints.map((p, idx) => ({...p, id: `idx+1`}))` at the
end of `optimizeInputPoints`, as a plain indexed map. -/

def renumFrom (n : ℕ) : List ControlPoint → List ControlPoint
  | [] => []
  | p :: ps => { p with id := toString (n + 1) } :: renumFrom (n + 1) ps

/-- `OptimizePointsParams` from `point.ts`. -/
structure OptimizePointsParams where
  edgePoints : List ControlPoint
  source : HandlePosition
  target : HandlePosition
  sourceOffset : ControlPoint
  targetOffset : ControlPoint
deriving DecidableEq

/-- The record returned by `optimizeInputPoints`. -/
structure OptimizedPoints where
  source : ControlPoint
  target : ControlPoint
  sourceOffset : ControlPoint
  targetOffset : ControlPoint
  edgePoints : List ControlPoint
deriving DecidableEq

/-- The full list `[source, sourceOffset, ...edgePoints, targetOffset, target]`
handed to `mergeClosePoints` by `optimizeInputPoints`. -/
def fullInputList (p : OptimizePointsParams) : List ControlPoint :=
  p.source.point :: p.sourceOffset :: (p.edgePoints ++ [p.targetOffset, p.target.point])

/-- `optimizeInputPoints` from `point.ts`: merge close coordinates, shift/pop the
corrected endpoints, read the offsets off the remaining list, de-duplicate and
re-number the interior.  The TS code uses non-null assertions (`shift()!`,
`pop()!`); the always-reachable success branch is wrapped in `some`, the
structurally impossible shapes give `none`. -/
def optimizeInputPoints (p : OptimizePointsParams) : Option OptimizedPoints := do
  let merged := mergeClosePoints (fullInputList p) 4
  let source0 ← merged.head?
  let rest := merged.tail
  let target0 ← rest.getLast?
  let mid := rest.dropLast
  let so ← mid.head?
  let tOff ← mid.getLast?
  some { source := correctWithAnchor p.source source0,
         target := correctWithAnchor p.target target0,
         sourceOffset := so,
         targetOffset := tOff,
         edgePoints := renumFrom 0 (removeRepeatPoints mid) }

/-- A path segment `{start, end}` (`ILine` in `edge.ts`; `end` is a Lean keyword,
so the field is `stop`). -/
structure ILine where
  start : ControlPoint
  stop : ControlPoint
deriving DecidableEq

/-- The `to` endpoints computed by `EdgeController.onDragging` for a diagram-space
drag delta: a horizontal segment (`start.y === end.y`) slides by `Δy`, any other
segment slides by `Δx`. -/
def onDraggingTo (seg : ILine) (delta : ℚ × ℚ) : ILine :=
  if seg.start.y = seg.stop.y then
    ⟨{ seg.start with y := seg.start.y + delta.2 }, { seg.stop with y := seg.stop.y + delta.2 }⟩
  else
    ⟨{ seg.start with x := seg.start.x + delta.1 }, { seg.stop with x := seg.stop.x + delta.1 }⟩

/-- A segment of the interactive chain: its chain index, the total number of
segments, and its endpoints (`SmartEdge` carries the same data). -/
structure SmartEdgeModel where
  idx : ℕ
  total : ℕ
  line : ILine
deriving DecidableEq

/-- Modelled from the spec: `SmartEdge.canDrag` lives in
`components/smart-edge.tsx`, which is not part of the provided sources.  The
spec's draggability condition: a genuine interior segment whose orientation is
well-defined — purely horizontal or purely vertical, not a degenerate
zero-length segment, and not the first or last segment of the chain. -/
def canDragModel (e : SmartEdgeModel) : Prop :=
  (e.line.start.y = e.line.stop.y ∨ e.line.start.x = e.line.stop.x) ∧
  ¬(e.line.start.y = e.line.stop.y ∧ e.line.start.x = e.line.stop.x) ∧
  0 < e.idx ∧ e.idx + 1 < e.total

instance (e : SmartEdgeModel) : Decidable (canDragModel e) := by
  unfold canDragModel
  infer_instance

/-! ### Per-axis view of `mergeClosePoints` -/

/-- The per-axis representative state after processing a list of raw coordinates. -/
def axisState (t : ℚ) : List ℚ → List ℚ → List ℚ
  | s, [] => s
  | s, v :: vs => axisState t (findPosition t s v).1 vs

/-- The per-axis merged coordinates for a list of raw coordinates. -/
def axisOut (t : ℚ) : List ℚ → List ℚ → List ℚ
  | _, [] => []
  | s, v :: vs => (findPosition t s v).2 :: axisOut t (findPosition t s v).1 vs

/-- The scan of `removeRepeatPoints` on coordinate keys only. -/
def rrpKeys (seen : List (ℚ × ℚ)) : List (ℚ × ℚ) → List (ℚ × ℚ)
  | [] => []
  | [k] => [k]
  | k :: k' :: ks =>
    if k ∈ seen then rrpKeys seen (k' :: ks)
    else k :: rrpKeys (seen ++ [k]) (k' :: ks)

/-- Default point used with `List.getD`. -/
def dftPoint : ControlPoint :=
  ⟨"", 0, 0⟩

/-- Written from the amended C3 policy: scan the non-final points left to
right while remembering the coordinate keys of every point seen so far
(the final point's key is remembered from the start); keep a point iff its
key differs from the final point's key and from every earlier point's key;
the final point is always kept. -/
def specKeep (lastKey : ℚ × ℚ) (earlier : List (ℚ × ℚ)) : List ControlPoint → List ControlPoint
  | [] => []
  | [p] => [p]
  | p :: q :: ps =>
    if pointKey p ≠ lastKey ∧ pointKey p ∉ earlier then
      p :: specKeep lastKey (earlier ++ [pointKey p]) (q :: ps)
    else specKeep lastKey (earlier ++ [pointKey p]) (q :: ps)

/-- The amended duplicate-removal policy, packaged like `removeRepeatPoints`. -/
def removeRepeatPointsSpec (points : List ControlPoint) : List ControlPoint :=
  match points.getLast? with
  | none => []
  | some lastP => specKeep (pointKey lastP) [] points

/-- Written from C7's words: the standard center-based AABB overlap test —
centers closer than half the sum of the extents on both axes. -/
def rectOverlapCenters (rect1 rect2 : NodeRect) : Bool :=
  decide
    (|(rect1.x + rect1.width / 2) - (rect2.x + rect2.width / 2)| <
        (rect1.width + rect2.width) / 2 ∧
      |(rect1.y + rect1.height / 2) - (rect2.y + rect2.height / 2)| <
        (rect1.height + rect2.height) / 2)

/-- Concrete optimizer input for the C1 witness. -/
def exC1P : OptimizePointsParams :=
  { edgePoints := [],
    source := ⟨"s", 0, 10, Position.right⟩, target := ⟨"t", 40, 50, Position.left⟩,
    sourceOffset := ⟨"so", 20, 10⟩, targetOffset := ⟨"to", 20, 50⟩ }

/-- The optimizer output on `exC1P`. -/
def exC1R : OptimizedPoints :=
  { source := ⟨"s", 0, 10⟩, target := ⟨"t", 40, 50⟩, sourceOffset := ⟨"so", 20, 10⟩,
    targetOffset := ⟨"to", 20, 50⟩, edgePoints := [⟨"1", 20, 10⟩, ⟨"2", 20, 50⟩] }

/-- Concrete optimizer input for the C2 witness (non-integer anchors, duplicates). -/
def exC2P : OptimizePointsParams :=
  { edgePoints := [⟨"e1", 21/2, 3⟩, ⟨"e2", 21/2, 47⟩],
    source := ⟨"s", 1/2, 3, Position.bottom⟩, target := ⟨"t", 77/2, 187/4, Position.top⟩,
    sourceOffset := ⟨"so", 1/2, 13⟩, targetOffset := ⟨"to", 77/2, 153/4⟩ }

/-- The optimizer output on `exC2P`. -/
def exC2R : OptimizedPoints :=
  { source := ⟨"s", 0, 3⟩, target := ⟨"t", 38, 187/4⟩, sourceOffset := ⟨"so", 0, 13⟩,
    targetOffset := ⟨"to", 38, 38⟩,
    edgePoints := [⟨"1", 0, 13⟩, ⟨"2", 10, 3⟩, ⟨"3", 10, 47⟩, ⟨"4", 38, 38⟩] }

/-- The drag-scenario segment for the C8 witness (interior chain index). -/
def exC8 : SmartEdgeModel :=
  ⟨1, 4, ⟨⟨"hs", 10, 50⟩, ⟨"he", 90, 50⟩⟩⟩

/-- Concrete input for the C9 witness. -/
def exC9 : List ControlPoint :=
  [⟨"w", 3/2, -5/2⟩, ⟨"v", 2, 11⟩]

/-- The feedback of C2: the optimizer's outputs handed back as the next run's
inputs, the two anchors keeping their positions. -/
def feedbackParams (p : OptimizePointsParams) (r : OptimizedPoints) : OptimizePointsParams :=
  { edgePoints := r.edgePoints,
    source := ⟨r.source.id, r.source.x, r.source.y, p.source.position⟩,
    target := ⟨r.target.id, r.target.x, r.target.y, p.target.position⟩,
    sourceOffset := r.sourceOffset,
    targetOffset := r.targetOffset }

lemma findPosition_of_found {t : ℚ} {s : List ℚ} {v p : ℚ}
    (h : s.find? (fun e => decide (|ratFloor v - e| < t)) = some p) :
    findPosition t s v = (s, p) := by
  simp [findPosition, h]

lemma findPosition_of_none {t : ℚ} {s : List ℚ} {v : ℚ}
    (h : s.find? (fun e => decide (|ratFloor v - e| < t)) = none) :
    findPosition t s v = (s ++ [ratFloor v], ratFloor v) := by
  simp [findPosition, h]

lemma mergeRun_cons (t : ℚ) (xs ys : List ℚ) (p : ControlPoint) (ps : List ControlPoint) :
    mergeRun t xs ys (p :: ps) =
      { p with x := (findPosition t xs p.x).2, y := (findPosition t ys p.y).2 } ::
        mergeRun t (findPosition t xs p.x).1 (findPosition t ys p.y).1 ps := rfl

lemma mergeRun_length (t : ℚ) (xs ys : List ℚ) (l : List ControlPoint) :
    (mergeRun t xs ys l).length = l.length := by
  induction l generalizing xs ys with
  | nil => rfl
  | cons p ps ih => simp [mergeRun, ih]

lemma mergeRun_map_id (t : ℚ) (xs ys : List ℚ) (l : List ControlPoint) :
    (mergeRun t xs ys l).map (fun p => p.id) = l.map (fun p => p.id) := by
  induction l generalizing xs ys with
  | nil => rfl
  | cons p ps ih => simp [mergeRun, ih]

lemma mergeRun_map_x (t : ℚ) (xs ys : List ℚ) (l : List ControlPoint) :
    (mergeRun t xs ys l).map (fun p => p.x) = axisOut t xs (l.map fun p => p.x) := by
  induction l generalizing xs ys with
  | nil => rfl
  | cons p ps ih => simp [mergeRun, axisOut, ih]

lemma mergeRun_map_y (t : ℚ) (xs ys : List ℚ) (l : List ControlPoint) :
    (mergeRun t xs ys l).map (fun p => p.y) = axisOut t ys (l.map fun p => p.y) := by
  induction l generalizing xs ys with
  | nil => rfl
  | cons p ps ih => simp [mergeRun, axisOut, ih]

lemma mergeRun_append (t : ℚ) (xs ys : List ℚ) (l₁ l₂ : List ControlPoint) :
    mergeRun t xs ys (l₁ ++ l₂) =
      mergeRun t xs ys l₁ ++
        mergeRun t (axisState t xs (l₁.map fun p => p.x))
          (axisState t ys (l₁.map fun p => p.y)) l₂ := by
  induction l₁ generalizing xs ys with
  | nil => rfl
  | cons p ps ih => simp [mergeRun, axisState, ih]

lemma axisState_append (t : ℚ) (s : List ℚ) (l₁ l₂ : List ℚ) :
    axisState t s (l₁ ++ l₂) = axisState t (axisState t s l₁) l₂ := by
  induction l₁ generalizing s with
  | nil => rfl
  | cons v vs ih => simp [axisState, ih]

lemma axisState_extend (t : ℚ) (s : List ℚ) (vs : List ℚ) :
    ∃ ext, axisState t s vs = s ++ ext := by
  induction vs generalizing s with
  | nil => exact ⟨[], by simp [axisState]⟩
  | cons v vs ih =>
    rcases ih (findPosition t s v).1 with ⟨ext, hext⟩
    cases h : s.find? (fun e => decide (|ratFloor v - e| < t)) with
    | some p =>
      refine ⟨ext, ?_⟩
      rw [axisState, hext, findPosition_of_found h]
    | none =>
      refine ⟨ratFloor v :: ext, ?_⟩
      rw [axisState, hext, findPosition_of_none h]
      simp

lemma axisState_mem (t : ℚ) (s : List ℚ) (vs : List ℚ) :
    ∀ a ∈ axisState t s vs, a ∈ s ∨ ∃ v ∈ vs, a = ratFloor v := by
  induction vs generalizing s with
  | nil => exact fun a ha => Or.inl ha
  | cons v vs ih =>
    intro a ha
    rw [axisState] at ha
    rcases ih (findPosition t s v).1 a ha with h1 | ⟨w, hw, haw⟩
    · cases h : s.find? (fun e => decide (|ratFloor v - e| < t)) with
      | some p =>
        rw [findPosition_of_found h] at h1
        exact Or.inl h1
      | none =>
        rw [findPosition_of_none h] at h1
        rcases List.mem_append.1 h1 with h2 | h2
        · exact Or.inl h2
        · exact Or.inr ⟨v, List.mem_cons_self v vs, List.mem_singleton.1 h2⟩
    · exact Or.inr ⟨w, List.mem_cons_of_mem v hw, haw⟩

lemma axisOut_mem_state (t : ℚ) (s : List ℚ) (vs : List ℚ) :
    ∀ a ∈ axisOut t s vs, a ∈ axisState t s vs := by
  induction vs generalizing s with
  | nil => intro a ha; simp [axisOut] at ha
  | cons v vs ih =>
    intro a ha
    rw [axisOut] at ha
    rw [axisState]
    rcases List.mem_cons.1 ha with h1 | h1
    · subst h1
      rcases axisState_extend t (findPosition t s v).1 vs with ⟨ext, hext⟩
      rw [hext]
      refine List.mem_append_left _ ?_
      cases h : s.find? (fun e => decide (|ratFloor v - e| < t)) with
      | some p =>
        rw [findPosition_of_found h]
        exact List.mem_of_find?_eq_some h
      | none =>
        rw [findPosition_of_none h]
        simp
    · exact ih _ a h1

/-- Pairwise separation of a representative set: distinct members are at least
the threshold apart. -/
def sepSet (t : ℚ) (R : List ℚ) : Prop :=
  ∀ a ∈ R, ∀ b ∈ R, a ≠ b → t ≤ |a - b|

lemma sepSet_push {t : ℚ} {s : List ℚ} {v : ℚ}
    (hs : sepSet t s) (hv : ∀ a ∈ s, ¬ |v - a| < t) : sepSet t (s ++ [v]) := by
  intro a ha b hb hab
  rcases List.mem_append.1 ha with ha' | ha' <;> rcases List.mem_append.1 hb with hb' | hb'
  · exact hs a ha' b hb' hab
  · rw [List.mem_singleton.1 hb']
    rw [abs_sub_comm]
    exact not_lt.1 (hv a ha')
  · rw [List.mem_singleton.1 ha']
    exact not_lt.1 (hv b hb')
  · exact absurd (by rw [List.mem_singleton.1 ha', List.mem_singleton.1 hb']) hab

lemma axisState_sep (t : ℚ) (s : List ℚ) (vs : List ℚ) (hs : sepSet t s) :
    sepSet t (axisState t s vs) := by
  induction vs generalizing s with
  | nil => exact hs
  | cons v vs ih =>
    rw [axisState]
    cases h : s.find? (fun e => decide (|ratFloor v - e| < t)) with
    | some p =>
      rw [findPosition_of_found h]
      exact ih s hs
    | none =>
      rw [findPosition_of_none h]
      refine ih _ (sepSet_push hs ?_)
      intro a ha
      have := List.find?_eq_none.1 h a ha
      simpa using this

/-- Processing a value whose floor is an already-known representative of a
separated set leaves the state inside the set and returns exactly that floor. -/
lemma findPosition_self {t : ℚ} {R : List ℚ} (hsep : sepSet t R)
    {s : List ℚ} (hs : ∀ a ∈ s, a ∈ R) (v : ℚ) (hv : ratFloor v ∈ R) :
    (findPosition t s v).2 = ratFloor v ∧ ∀ a ∈ (findPosition t s v).1, a ∈ R := by
  cases h : s.find? (fun e => decide (|ratFloor v - e| < t)) with
  | some p =>
    rw [findPosition_of_found h]
    have hps : p ∈ s := List.mem_of_find?_eq_some h
    have hlt : |ratFloor v - p| < t := by simpa using List.find?_some h
    have hpv : p = ratFloor v := by
      by_contra hne
      have := hsep (ratFloor v) hv p (hs p hps) (fun hh => hne hh.symm)
      exact absurd hlt (not_lt.2 this)
    exact ⟨hpv.symm ▸ rfl, hs⟩
  | none =>
    rw [findPosition_of_none h]
    refine ⟨rfl, ?_⟩
    intro a ha
    rcases List.mem_append.1 ha with h' | h'
    · exact hs a h'
    · rw [List.mem_singleton.1 h']
      exact hv

/-- Merging a list of points all of whose coordinates are integral members of
separated representative sets (with states inside those sets) is the identity. -/
lemma mergeRun_ident (t : ℚ) (Rx Ry : List ℚ) (hx : sepSet t Rx) (hy : sepSet t Ry)
    (xs ys : List ℚ) (hxs : ∀ a ∈ xs, a ∈ Rx) (hys : ∀ a ∈ ys, a ∈ Ry)
    (l : List ControlPoint)
    (hl : ∀ p ∈ l, (p.x ∈ Rx ∧ ratFloor p.x = p.x) ∧ (p.y ∈ Ry ∧ ratFloor p.y = p.y)) :
    mergeRun t xs ys l = l ∧
      (∀ a ∈ axisState t xs (l.map fun p => p.x), a ∈ Rx) ∧
      (∀ a ∈ axisState t ys (l.map fun p => p.y), a ∈ Ry) := by
  induction l generalizing xs ys with
  | nil => exact ⟨rfl, hxs, hys⟩
  | cons p ps ih =>
    rcases hl p (List.mem_cons_self p ps) with ⟨⟨hpx, hpxi⟩, ⟨hpy, hpyi⟩⟩
    have hfx := findPosition_self hx hxs p.x (hpxi.symm ▸ hpx)
    have hfy := findPosition_self hy hys p.y (hpyi.symm ▸ hpy)
    have ihh := ih (findPosition t xs p.x).1 (findPosition t ys p.y).1 hfx.2 hfy.2
      (fun q hq => hl q (List.mem_cons_of_mem p hq))
    refine ⟨?_, ?_, ?_⟩
    · rw [mergeRun_cons, ihh.1, hfx.1, hfy.1, hpxi, hpyi]
    · simpa [axisState] using ihh.2.1
    · simpa [axisState] using ihh.2.2

lemma ratFloor_ratFloor (v : ℚ) : ratFloor (ratFloor v) = ratFloor v := by
  simp [ratFloor]

/-! ### Key-level view of `removeRepeatPoints` -/

lemma rrpKeys_cons_of_ne_nil (seen : List (ℚ × ℚ)) (k : ℚ × ℚ) {rest : List (ℚ × ℚ)}
    (h : rest ≠ []) :
    rrpKeys seen (k :: rest) =
      if k ∈ seen then rrpKeys seen rest else k :: rrpKeys (seen ++ [k]) rest := by
  cases rest with
  | nil => exact absurd rfl h
  | cons a l => rfl

lemma rrpGo_map_key (seen : List (ℚ × ℚ)) (ps : List ControlPoint) :
    (rrpGo seen ps).map pointKey = rrpKeys seen (ps.map pointKey) := by
  induction ps generalizing seen with
  | nil => rfl
  | cons p rest ih =>
    cases rest with
    | nil => rfl
    | cons q ps' =>
      by_cases h : pointKey p ∈ seen <;>
        simp [rrpGo, rrpKeys, h, ih]

lemma rrpKeys_concat_last (ks : List (ℚ × ℚ)) (k : ℚ × ℚ)
    (h : ks.getLast? = some k) :
    ∀ seen, ∃ B, rrpKeys seen ks = B ++ [k] := by
  induction ks with
  | nil => simp at h
  | cons a rest ih =>
    intro seen
    cases rest with
    | nil =>
      simp at h
      exact ⟨[], by simp [rrpKeys, h]⟩
    | cons b l =>
      have h' : (b :: l).getLast? = some k := by
        simpa using h
      by_cases ha : a ∈ seen
      · rcases ih h' seen with ⟨B, hB⟩
        exact ⟨B, by simp [rrpKeys, ha, hB]⟩
      · rcases ih h' (seen ++ [a]) with ⟨B', hB'⟩
        exact ⟨a :: B', by simp [rrpKeys, ha, hB']⟩

lemma rrpKeys_ne_nil (seen : List (ℚ × ℚ)) (ks : List (ℚ × ℚ)) (h : ks ≠ []) :
    rrpKeys seen ks ≠ [] := by
  cases hk : ks.getLast? with
  | none => exact absurd (List.getLast?_eq_none_iff.1 hk) h
  | some k =>
    rcases rrpKeys_concat_last ks k hk seen with ⟨B, hB⟩
    simp [hB]

lemma rrpKeys_dropLast_nodup (seen : List (ℚ × ℚ)) (ks : List (ℚ × ℚ)) :
    (rrpKeys seen ks).dropLast.Nodup ∧ ∀ a ∈ (rrpKeys seen ks).dropLast, a ∉ seen := by
  induction ks generalizing seen with
  | nil => simp [rrpKeys]
  | cons a rest ih =>
    cases rest with
    | nil => simp [rrpKeys]
    | cons b l =>
      by_cases ha : a ∈ seen
      · rw [rrpKeys_cons_of_ne_nil seen a (List.cons_ne_nil b l), if_pos ha]
        exact ih seen
      · rw [rrpKeys_cons_of_ne_nil seen a (List.cons_ne_nil b l), if_neg ha]
        have hne := rrpKeys_ne_nil (seen ++ [a]) (b :: l) (List.cons_ne_nil b l)
        rcases ih (seen ++ [a]) with ⟨hnd, hmem⟩
        rw [List.dropLast_cons_of_ne_nil hne]
        constructor
        · refine List.nodup_cons.2 ⟨?_, hnd⟩
          intro hmem'
          have := hmem a hmem'
          simp at this
        · intro c hc
          rcases List.mem_cons.1 hc with hc' | hc'
          · exact hc' ▸ ha
          · intro hcseen
            exact hmem c hc' (List.mem_append_left _ hcseen)

lemma rrpKeys_keep_all (seen : List (ℚ × ℚ)) (bs : List (ℚ × ℚ)) (c : ℚ × ℚ)
    (hnd : bs.Nodup) (hdisj : ∀ b ∈ bs, b ∉ seen) (hc : c ∈ seen) :
    rrpKeys seen (bs ++ [c, c]) = bs ++ [c] := by
  induction bs generalizing seen with
  | nil => simp [rrpKeys, hc]
  | cons b bs ih =>
    have hb : b ∉ seen := hdisj b (List.mem_cons_self b bs)
    have hdisj' : ∀ d ∈ bs, d ∉ seen ++ [b] := by
      intro d hd hmem
      rcases List.mem_append.1 hmem with h' | h'
      · exact hdisj d (List.mem_cons_of_mem b hd) h'
      · exact (List.nodup_cons.1 hnd).1 ((List.mem_singleton.1 h') ▸ hd)
    rw [List.cons_append,
      rrpKeys_cons_of_ne_nil seen b (show bs ++ [c, c] ≠ [] by simp), if_neg hb,
      ih (seen ++ [b]) (List.nodup_cons.1 hnd).2 hdisj' (List.mem_append_left _ hc)]
    simp

/-- The central duplicate-removal stability fact used by idempotence: re-scanning
the head of the original list, then the de-duplicated interior, then the last
point again, reproduces exactly the de-duplicated interior. -/
lemma rrpKeys_feedback (k0 kl : ℚ × ℚ) (rest : List (ℚ × ℚ)) (hrest : rest ≠ [])
    (hkl : (k0 :: rest).getLast? = some kl) :
    rrpKeys [kl] (k0 :: rrpKeys [kl] (k0 :: rest) ++ [kl]) =
      rrpKeys [kl] (k0 :: rest) := by
  rcases rrpKeys_concat_last (k0 :: rest) kl hkl [kl] with ⟨B, hB⟩
  rcases rrpKeys_dropLast_nodup [kl] (k0 :: rest) with ⟨hnd, hseen⟩
  rw [hB] at hnd hseen
  rw [List.dropLast_concat] at hnd hseen
  have hBkl : ∀ b ∈ B, b ≠ kl := by
    intro b hb
    have := hseen b hb
    simpa using this
  have hshape : (k0 :: (B ++ [kl])) ++ [kl] = k0 :: (B ++ [kl, kl]) := by
    simp
  rw [hB, hshape, rrpKeys_cons_of_ne_nil _ k0 (show B ++ [kl, kl] ≠ [] by simp)]
  by_cases hk0 : k0 ∈ ([kl] : List (ℚ × ℚ))
  · rw [if_pos hk0]
    have hBdisj : ∀ b ∈ B, b ∉ ([kl] : List (ℚ × ℚ)) := by
      intro b hb
      simpa using hBkl b hb
    rw [rrpKeys_keep_all [kl] B kl hnd hBdisj (by simp)]
  · rw [if_neg hk0]
    have hk0kl : k0 ≠ kl := by simpa using hk0
    have hE : rrpKeys [kl] (k0 :: rest) = k0 :: rrpKeys [kl, k0] rest := by
      rw [rrpKeys_cons_of_ne_nil [kl] k0 hrest, if_neg hk0]
      rfl
    have hBcons : ∃ B', B = k0 :: B' := by
      cases B with
      | nil =>
        rw [hE] at hB
        simp at hB
        exact absurd hB.1 hk0kl
      | cons b B' =>
        rw [hE] at hB
        simp at hB
        exact ⟨B', by rw [hB.1]⟩
    rcases hBcons with ⟨B', hB'⟩
    subst hB'
    have hdisj' : ∀ d ∈ B', d ∉ ([kl] : List (ℚ × ℚ)) ++ [k0] := by
      intro d hd hmem
      rcases List.mem_append.1 hmem with h' | h'
      · exact hBkl d (List.mem_cons_of_mem k0 hd) (List.mem_singleton.1 h')
      · exact (List.nodup_cons.1 hnd).1 ((List.mem_singleton.1 h') ▸ hd)
    have hsplit : ((k0 :: B') ++ [kl, kl] : List (ℚ × ℚ)) = k0 :: (B' ++ [kl, kl]) := by
      simp
    rw [hsplit,
      rrpKeys_cons_of_ne_nil _ k0 (show B' ++ [kl, kl] ≠ [] by simp),
      if_pos (show k0 ∈ ([kl] : List (ℚ × ℚ)) ++ [k0] by simp),
      rrpKeys_keep_all _ B' kl (List.nodup_cons.1 hnd).2 hdisj' (by simp)]
    simp

lemma renumFrom_map_key (n : ℕ) (l : List ControlPoint) :
    (renumFrom n l).map pointKey = l.map pointKey := by
  induction l generalizing n with
  | nil => rfl
  | cons p ps ih => simp [renumFrom, ih, pointKey]

lemma renumFrom_congr (n : ℕ) {as bs : List ControlPoint}
    (h : as.map pointKey = bs.map pointKey) : renumFrom n as = renumFrom n bs := by
  induction as generalizing bs n with
  | nil =>
    cases bs with
    | nil => rfl
    | cons b bs => simp at h
  | cons a as ih =>
    cases bs with
    | nil => simp at h
    | cons b bs =>
      simp only [List.map_cons, List.cons.injEq] at h
      rcases h with ⟨hk, hrest⟩
      have hx : a.x = b.x := congrArg Prod.fst hk
      have hy : a.y = b.y := congrArg Prod.snd hk
      have hhead : ({ a with id := toString (n + 1) } : ControlPoint) =
          { b with id := toString (n + 1) } := by
        cases a
        cases b
        simp_all
      show ({ a with id := toString (n + 1) } : ControlPoint) :: renumFrom (n + 1) as =
        { b with id := toString (n + 1) } :: renumFrom (n + 1) bs
      rw [hhead, ih (n + 1) hrest]

lemma renumFrom_mem (n : ℕ) (l : List ControlPoint) :
    ∀ q ∈ renumFrom n l, ∃ q' ∈ l, q.x = q'.x ∧ q.y = q'.y := by
  induction l generalizing n with
  | nil => simp [renumFrom]
  | cons p ps ih =>
    intro q hq
    rcases List.mem_cons.1 hq with h' | h'
    · exact ⟨p, List.mem_cons_self p ps, by rw [h'], by rw [h']⟩
    · rcases ih (n + 1) q h' with ⟨q', hq', hxy⟩
      exact ⟨q', List.mem_cons_of_mem p hq', hxy⟩

lemma rrpGo_subset (seen : List (ℚ × ℚ)) (ps : List ControlPoint) :
    ∀ q ∈ rrpGo seen ps, q ∈ ps := by
  induction ps generalizing seen with
  | nil => simp [rrpGo]
  | cons p rest ih =>
    cases rest with
    | nil => simp [rrpGo]
    | cons b l =>
      intro q hq
      by_cases hp : pointKey p ∈ seen
      · rw [rrpGo, if_pos hp] at hq
        exact List.mem_cons_of_mem p (ih seen q hq)
      · rw [rrpGo, if_neg hp] at hq
        rcases List.mem_cons.1 hq with h' | h'
        · exact h' ▸ List.mem_cons_self p _
        · exact List.mem_cons_of_mem p (ih (seen ++ [pointKey p]) q h')

/-! ### Shape of `optimizeInputPoints` -/

lemma findPosition_nil (t : ℚ) (v : ℚ) :
    findPosition t [] v = ([ratFloor v], ratFloor v) := by
  simp [findPosition]

lemma sepSet_nil (t : ℚ) : sepSet t [] := by
  intro a ha
  simp at ha

lemma list_decomp4 {α : Type} (l : List α) (h : 4 ≤ l.length) :
    ∃ a b c mrest, l = a :: ((b :: mrest) ++ [c]) := by
  cases l with
  | nil => simp at h
  | cons a l1 =>
    cases l1 with
    | nil => simp at h
    | cons b l2 =>
      have hl2 : l2 ≠ [] := by
        intro he
        rw [he] at h
        simp at h
      refine ⟨a, b, l2.getLast hl2, l2.dropLast, ?_⟩
      conv_lhs => rw [← List.dropLast_concat_getLast hl2]
      simp

lemma mergeClosePoints_length (l : List ControlPoint) (t : ℚ) :
    (mergeClosePoints l t).length = l.length :=
  mergeRun_length t [] [] l

lemma fullInputList_length (p : OptimizePointsParams) :
    (fullInputList p).length = p.edgePoints.length + 4 := by
  simp [fullInputList]

/-- Evaluating `optimizeInputPoints` once the merged list is split as
`first :: interior ++ [last]`. -/
lemma optimizeInputPoints_eq_of_decomp (p : OptimizePointsParams)
    (s0 so t0 : ControlPoint) (mrest : List ControlPoint)
    (h : mergeClosePoints (fullInputList p) 4 = s0 :: ((so :: mrest) ++ [t0])) :
    optimizeInputPoints p = some
      { source := correctWithAnchor p.source s0,
        target := correctWithAnchor p.target t0,
        sourceOffset := so,
        targetOffset := (so :: mrest).getLast (List.cons_ne_nil so mrest),
        edgePoints := renumFrom 0 (removeRepeatPoints (so :: mrest)) } := by
  unfold optimizeInputPoints
  rw [h]
  simp only [List.head?_cons, List.tail_cons, List.getLast?_concat, List.dropLast_concat,
    List.getLast?_eq_getLast (so :: mrest) (List.cons_ne_nil so mrest), Option.some_bind]
  rfl

/-! ### Indexwise facts about the coordinate merge -/

lemma findPosition_congr (t : ℚ) (s : List ℚ) {v v' : ℚ} (h : ratFloor v = ratFloor v') :
    findPosition t s v = findPosition t s v' := by
  unfold findPosition
  rw [h]

lemma axisOut_length (t : ℚ) (s vs : List ℚ) : (axisOut t s vs).length = vs.length := by
  induction vs generalizing s with
  | nil => rfl
  | cons v vs ih => simp [axisOut, ih]

lemma axisOut_getD (t : ℚ) (s vs : List ℚ) :
    ∀ i, i < vs.length →
      (axisOut t s vs).getD i 0 =
        (findPosition t (axisState t s (vs.take i)) (vs.getD i 0)).2 := by
  induction vs generalizing s with
  | nil => intro i hi; simp at hi
  | cons v vs ih =>
    intro i hi
    cases i with
    | zero => simp [axisOut, axisState]
    | succ n =>
      have h := ih (findPosition t s v).1 n (by simpa using hi)
      simpa [axisOut, axisState, List.take_succ_cons] using h

lemma axisOut_close (t : ℚ) (ht : 0 < t) (s vs : List ℚ) :
    ∀ i, i < vs.length →
      |(axisOut t s vs).getD i 0 - ratFloor (vs.getD i 0)| < t := by
  intro i hi
  rw [axisOut_getD t s vs i hi]
  cases h : (axisState t s (vs.take i)).find?
      (fun e => decide (|ratFloor (vs.getD i 0) - e| < t)) with
  | some p =>
    rw [findPosition_of_found h]
    have hp := List.find?_some h
    simp only [decide_eq_true_eq] at hp
    rw [abs_sub_comm]
    exact hp
  | none =>
    rw [findPosition_of_none h]
    simpa using ht

lemma axisOut_stable (t : ℚ) (ht : 0 < t) (s vs : List ℚ) :
    ∀ i j, i < j → j < vs.length →
      ratFloor (vs.getD i 0) = ratFloor (vs.getD j 0) →
      (axisOut t s vs).getD i 0 = (axisOut t s vs).getD j 0 := by
  intro i j hij hj hf
  have hi : i < vs.length := lt_trans hij hj
  rw [axisOut_getD t s vs i hi, axisOut_getD t s vs j hj,
    findPosition_congr t (axisState t s (vs.take j)) hf.symm]
  have h2 : vs.take (i + 1) = vs.take i ++ [vs.getD i 0] := by
    rw [List.take_succ, List.getElem?_eq_getElem hi, List.getD_eq_getElem _ _ hi]
    rfl
  have h1 : vs.take j = vs.take (i + 1) ++ (vs.drop (i + 1)).take (j - (i + 1)) := by
    rw [← List.take_add]
    congr 1
    omega
  have hSj : axisState t s (vs.take j) =
      axisState t (findPosition t (axisState t s (vs.take i)) (vs.getD i 0)).1
        ((vs.drop (i + 1)).take (j - (i + 1))) := by
    rw [h1, h2, axisState_append, axisState_append]
    rfl
  rcases axisState_extend t (findPosition t (axisState t s (vs.take i)) (vs.getD i 0)).1
    ((vs.drop (i + 1)).take (j - (i + 1))) with ⟨ext, hext⟩
  rw [hext] at hSj
  cases h : (axisState t s (vs.take i)).find?
      (fun e => decide (|ratFloor (vs.getD i 0) - e| < t)) with
  | some p =>
    rw [findPosition_of_found h] at hSj ⊢
    have hfind : (axisState t s (vs.take j)).find?
        (fun e => decide (|ratFloor (vs.getD i 0) - e| < t)) = some p := by
      rw [hSj, List.find?_append, h]
      rfl
    rw [findPosition_of_found hfind]
  | none =>
    rw [findPosition_of_none h] at hSj ⊢
    have hfind : (axisState t s (vs.take j)).find?
        (fun e => decide (|ratFloor (vs.getD i 0) - e| < t)) =
          some (ratFloor (vs.getD i 0)) := by
      rw [hSj, List.append_assoc, List.find?_append, h]
      simp [ht]
    rw [findPosition_of_found hfind]

lemma axisOut_floor (t : ℚ) (vs : List ℚ) :
    ∀ a ∈ axisOut t [] vs, ∃ v ∈ vs, a = ratFloor v := by
  intro a ha
  have h1 := axisOut_mem_state t [] vs a ha
  rcases axisState_mem t [] vs a h1 with h2 | h2
  · simp at h2
  · exact h2

lemma getD_map_field {β : Type} (f : ControlPoint → β) (l : List ControlPoint) (i : ℕ) :
    (l.map f).getD i (f dftPoint) = f (l.getD i dftPoint) := by
  induction l generalizing i with
  | nil => rfl
  | cons p ps ih => cases i <;> simp [ih]

lemma getD_mem_of_lt {α : Type} (l : List α) (d : α) :
    ∀ i, i < l.length → l.getD i d ∈ l := by
  induction l with
  | nil => intro i hi; simp at hi
  | cons a as ih =>
    intro i hi
    cases i with
    | zero => simp
    | succ n =>
      rw [List.getD_cons_succ]
      exact List.mem_cons_of_mem a (ih n (by simpa using hi))

/-! ### Specification functions written from claim text (for comparison) -/

/-! ### Helper lemmas for `removeRepeatPoints` and `reducePoints` -/

lemma rrpGo_eq_specKeep (lastKey : ℚ × ℚ) (ps : List ControlPoint) :
    ∀ seen earlier, (∀ k, k ∈ seen ↔ (k = lastKey ∨ k ∈ earlier)) →
      rrpGo seen ps = specKeep lastKey earlier ps := by
  induction ps with
  | nil => intro seen earlier _; rfl
  | cons p rest ih =>
    intro seen earlier hinv
    cases rest with
    | nil => rfl
    | cons q ps' =>
      by_cases hp : pointKey p ∈ seen
      · have hcond : ¬(pointKey p ≠ lastKey ∧ pointKey p ∉ earlier) := by
          rcases (hinv (pointKey p)).1 hp with h' | h'
          · exact fun hc => hc.1 h'
          · exact fun hc => hc.2 h'
        rw [rrpGo, if_pos hp, specKeep, if_neg hcond]
        refine ih seen (earlier ++ [pointKey p]) ?_
        intro k
        constructor
        · intro hk
          rcases (hinv k).1 hk with h' | h'
          · exact Or.inl h'
          · exact Or.inr (List.mem_append_left _ h')
        · intro hk
          rcases hk with h' | h'
          · exact (hinv k).2 (Or.inl h')
          · rcases List.mem_append.1 h' with h'' | h''
            · exact (hinv k).2 (Or.inr h'')
            · rw [List.mem_singleton.1 h'']
              exact hp
      · have hcond : pointKey p ≠ lastKey ∧ pointKey p ∉ earlier := by
          constructor
          · intro h'
            exact hp ((hinv (pointKey p)).2 (Or.inl h'))
          · intro h'
            exact hp ((hinv (pointKey p)).2 (Or.inr h'))
        rw [rrpGo, if_neg hp, specKeep, if_pos hcond]
        refine congrArg (p :: ·) (ih (seen ++ [pointKey p]) (earlier ++ [pointKey p]) ?_)
        intro k
        constructor
        · intro hk
          rcases List.mem_append.1 hk with h' | h'
          · rcases (hinv k).1 h' with h'' | h''
            · exact Or.inl h''
            · exact Or.inr (List.mem_append_left _ h'')
          · exact Or.inr (List.mem_append_right _ h')
        · intro hk
          rcases hk with h' | h'
          · exact List.mem_append_left _ ((hinv k).2 (Or.inl h'))
          · rcases List.mem_append.1 h' with h'' | h''
            · exact List.mem_append_left _ ((hinv k).2 (Or.inr h''))
            · exact List.mem_append_right _ h''

lemma reduceGo_ne_nil (prev : ControlPoint) (l : List ControlPoint) (h : l ≠ []) :
    reduceGo prev l ≠ [] := by
  induction l generalizing prev with
  | nil => exact absurd rfl h
  | cons p rest ih =>
    cases rest with
    | nil => simp [reduceGo]
    | cons q ps =>
      by_cases hl : isInLine p prev q = true
      · rw [reduceGo, if_pos hl]
        exact ih p (List.cons_ne_nil q ps)
      · rw [reduceGo, if_neg hl]
        simp

lemma reduceGo_getLast? (prev : ControlPoint) (l : List ControlPoint) (h : l ≠ []) :
    (reduceGo prev l).getLast? = l.getLast? := by
  induction l generalizing prev with
  | nil => exact absurd rfl h
  | cons p rest ih =>
    cases rest with
    | nil => rfl
    | cons q ps =>
      by_cases hl : isInLine p prev q = true
      · rw [reduceGo, if_pos hl, ih p (List.cons_ne_nil q ps), List.getLast?_cons_cons]
      · rw [reduceGo, if_neg hl, List.getLast?_cons_cons, List.getLast?_cons,
          ih p (List.cons_ne_nil q ps)]
        cases hgl : (q :: ps).getLast? with
        | none => simp at hgl
        | some z => rfl

/-! ### Concrete inputs used by witnesses -/

/-! ### Claim theorems -/

/-- C1: endpoint fidelity of the optimizer — the returned source point carries
the exact source anchor coordinate on the axis given by the anchor's side
(x for Left/Right anchors, y for Top/Bottom anchors), whatever coordinate
merging produced; likewise for the target. -/
theorem optimize_endpoint_fidelity (p : OptimizePointsParams) (r : OptimizedPoints)
    (h : optimizeInputPoints p = some r) :
    ((p.source.position = Position.left ∨ p.source.position = Position.right) →
      r.source.x = p.source.x) ∧
    ((p.source.position = Position.top ∨ p.source.position = Position.bottom) →
      r.source.y = p.source.y) ∧
    ((p.target.position = Position.left ∨ p.target.position = Position.right) →
      r.target.x = p.target.x) ∧
    ((p.target.position = Position.top ∨ p.target.position = Position.bottom) →
      r.target.y = p.target.y) := by
  obtain ⟨s0, so, t0, mrest, hd⟩ := list_decomp4 (mergeClosePoints (fullInputList p) 4) (by
    rw [mergeClosePoints_length, fullInputList_length]
    omega)
  rw [optimizeInputPoints_eq_of_decomp p s0 so t0 mrest hd] at h
  have hr := Option.some.inj h
  refine ⟨?_, ?_, ?_, ?_⟩ <;> intro hp <;> rw [← hr]
  · have hh : isHorizontalFromPosition p.source.position = true := by
      rcases hp with h' | h' <;> rw [h'] <;> rfl
    simp [correctWithAnchor, hh]
  · have hh : isHorizontalFromPosition p.source.position = false := by
      rcases hp with h' | h' <;> rw [h'] <;> rfl
    simp [correctWithAnchor, hh]
  · have hh : isHorizontalFromPosition p.target.position = true := by
      rcases hp with h' | h' <;> rw [h'] <;> rfl
    simp [correctWithAnchor, hh]
  · have hh : isHorizontalFromPosition p.target.position = false := by
      rcases hp with h' | h' <;> rw [h'] <;> rfl
    simp [correctWithAnchor, hh]

/-- Witness for C1 at a concrete input. -/
theorem optimize_endpoint_fidelity_witness :
    optimizeInputPoints exC1P = some exC1R ∧
    (((exC1P.source.position = Position.left ∨ exC1P.source.position = Position.right) →
      exC1R.source.x = exC1P.source.x) ∧
    ((exC1P.source.position = Position.top ∨ exC1P.source.position = Position.bottom) →
      exC1R.source.y = exC1P.source.y) ∧
    ((exC1P.target.position = Position.left ∨ exC1P.target.position = Position.right) →
      exC1R.target.x = exC1P.target.x) ∧
    ((exC1P.target.position = Position.top ∨ exC1P.target.position = Position.bottom) →
      exC1R.target.y = exC1P.target.y)) := by
  have hev : optimizeInputPoints exC1P = some exC1R := by
    norm_num [optimizeInputPoints, mergeClosePoints, mergeRun, findPosition, ratFloor,
      fullInputList, HandlePosition.point, removeRepeatPoints, rrpGo, renumFrom, pointKey,
      correctWithAnchor, isHorizontalFromPosition, List.find?, exC1P, exC1R]
    all_goals decide
  exact ⟨hev, optimize_endpoint_fidelity exC1P exC1R hev⟩

/-- C3 (amended): `removeRepeatPoints` always keeps the last point; any other
point is kept iff its coordinates differ from the last point's and from every
earlier point's (first occurrence wins among non-final points); on the spec's
scenario input it returns `[(0,0),(50,0),(100,0)]`. -/
theorem removeRepeatPoints_policy :
    (∀ points : List ControlPoint, removeRepeatPoints points = removeRepeatPointsSpec points) ∧
    (removeRepeatPoints
        [⟨"1", 0, 0⟩, ⟨"2", 0, 0⟩, ⟨"3", 50, 0⟩, ⟨"4", 100, 0⟩, ⟨"5", 100, 0⟩]).map pointKey =
      [(0, 0), (50, 0), (100, 0)] := by
  constructor
  · intro points
    unfold removeRepeatPoints removeRepeatPointsSpec
    cases points.getLast? with
    | none => rfl
    | some lastP =>
      refine rrpGo_eq_specKeep (pointKey lastP) points [pointKey lastP] [] ?_
      intro k
      simp
  · decide

/-- C3 counterexample: on `[("a",0,0), ("b",0,0)]` the code DROPS the first
point (its key coincides with the last point's), so "the list's own first and
last points are always kept" is false as stated. -/
theorem removeRepeatPoints_first_dropped :
    removeRepeatPoints [⟨"a", 0, 0⟩, ⟨"b", 0, 0⟩] = [⟨"b", 0, 0⟩] ∧
    removeRepeatPoints [⟨"a", 0, 0⟩, ⟨"b", 0, 0⟩] ≠ [⟨"a", 0, 0⟩, ⟨"b", 0, 0⟩] := by
  decide

/-- C5 (code bug): `reducePoints` can return three collinear points — on this
input the output is `[(0,0),(5,0),(10,0)]` and the middle point lies on the
segment between its output neighbours, violating the no-collinear-interior
invariant (and the function's own documented guarantee). -/
theorem reducePoints_collinear_triple :
    (reducePoints
        [⟨"0", 0, 0⟩, ⟨"1", 0, 9⟩, ⟨"2", 0, 9⟩, ⟨"3", 5, 9⟩, ⟨"4", 5, 9⟩,
          ⟨"5", 5, 0⟩, ⟨"6", 10, 0⟩]).map pointKey = [(0, 0), (5, 0), (10, 0)] ∧
    isInLine ⟨"5", 5, 0⟩ ⟨"0", 0, 0⟩ ⟨"6", 10, 0⟩ = true := by
  decide

/-- C6 (amended): `isSegmentCrossingRect` returns false when BOTH the rect's
width and height are zero (a point rect); a rect with only one zero dimension
is not guarded. -/
theorem isSegmentCrossingRect_point_rect (p1 p2 : ControlPoint) (box : NodeRect)
    (hw : box.width = 0) (hh : box.height = 0) :
    isSegmentCrossingRect p1 p2 box = false := by
  unfold isSegmentCrossingRect
  rw [if_pos ⟨hw, hh⟩]

/-- Witness for C6 at a concrete input. -/
theorem isSegmentCrossingRect_point_rect_witness :
    (⟨1, 2, 0, 0⟩ : NodeRect).width = 0 ∧ (⟨1, 2, 0, 0⟩ : NodeRect).height = 0 ∧
    isSegmentCrossingRect ⟨"a", 0, 0⟩ ⟨"b", 3, 3⟩ ⟨1, 2, 0, 0⟩ = false :=
  ⟨rfl, rfl, isSegmentCrossingRect_point_rect ⟨"a", 0, 0⟩ ⟨"b", 3, 3⟩ ⟨1, 2, 0, 0⟩ rfl rfl⟩

/-- C6 counterexample: a zero-area rect with width 0 and height 5 makes
`isSegmentCrossingRect` report an intersection, so "false for every rect whose
width is 0 or whose height is 0" fails. -/
theorem isSegmentCrossingRect_degenerate_cex :
    (⟨0, 0, 0, 5⟩ : NodeRect).width = 0 ∧
    isSegmentCrossingRect ⟨"p", -1, 2⟩ ⟨"q", 1, 2⟩ ⟨0, 0, 0, 5⟩ = true := by
  refine ⟨rfl, ?_⟩
  norm_num [isSegmentCrossingRect, isSegmentsIntersected, getRectVertices, getRectSides,
    getRectVerticesFromSides]

/-- C7 (amended): `isRectOverLapping` is the threshold test on the stored
top-left corners — NOT on the centers: it returns true iff the top-left x
distance is below half the summed widths and the top-left y distance is below
half the summed heights. -/
theorem isRectOverLapping_iff (rect1 rect2 : NodeRect) :
    isRectOverLapping rect1 rect2 = true ↔
      (|rect1.x - rect2.x| < (rect1.width + rect2.width) / 2 ∧
        |rect1.y - rect2.y| < (rect1.height + rect2.height) / 2) := by
  simp [isRectOverLapping]

/-- C7 counterexample: two disjoint rects whose top-left corners are close —
the code reports overlap while the center-based AABB test reports none. -/
theorem isRectOverLapping_not_centers :
    isRectOverLapping ⟨0, 0, 10, 10⟩ ⟨11, 0, 20, 10⟩ = true ∧
    rectOverlapCenters ⟨0, 0, 10, 10⟩ ⟨11, 0, 20, 10⟩ = false := by
  norm_num [isRectOverLapping, rectOverlapCenters]

/-- C8: for a draggable segment, the drag `to` endpoints are the `from`
endpoints translated perpendicular to the segment — a horizontal segment keeps
x and adds the diagram-space Δy to both ys, a vertical one keeps y and adds Δx
to both xs. -/
theorem onDragging_perpendicular (e : SmartEdgeModel) (delta : ℚ × ℚ)
    (hd : canDragModel e) :
    (e.line.start.y = e.line.stop.y →
      onDraggingTo e.line delta =
        ⟨{ e.line.start with y := e.line.start.y + delta.2 },
          { e.line.stop with y := e.line.stop.y + delta.2 }⟩) ∧
    (e.line.start.x = e.line.stop.x →
      onDraggingTo e.line delta =
        ⟨{ e.line.start with x := e.line.start.x + delta.1 },
          { e.line.stop with x := e.line.stop.x + delta.1 }⟩) := by
  constructor
  · intro hh
    unfold onDraggingTo
    rw [if_pos hh]
  · intro hv
    have hne : ¬ e.line.start.y = e.line.stop.y := by
      intro hy
      exact hd.2.1 ⟨hy, hv⟩
    unfold onDraggingTo
    rw [if_neg hne]

/-- Witness for C8: the spec's drag scenario — dragging the horizontal segment
(10,50)–(90,50) by diagram delta (0,20) yields (10,70)–(90,70). -/
theorem onDragging_perpendicular_witness :
    canDragModel exC8 ∧
    onDraggingTo exC8.line (0, 20) = ⟨⟨"hs", 10, 70⟩, ⟨"he", 90, 70⟩⟩ :=
  ⟨by norm_num [canDragModel, exC8], by
    rw [(onDragging_perpendicular exC8 (0, 20) (by norm_num [canDragModel, exC8])).1 rfl]
    norm_num [exC8]⟩

/-- C10: `reducePoints` keeps the input's first and last points for lists of
length at least two, and duplicates a singleton input into a pair. -/
theorem reducePoints_endpoints (points : List ControlPoint) :
    (2 ≤ points.length →
      (reducePoints points).head? = points.head? ∧
      (reducePoints points).getLast? = points.getLast?) ∧
    (∀ p, points = [p] → reducePoints points = [p, p]) := by
  constructor
  · intro h2
    cases points with
    | nil => simp at h2
    | cons p rest =>
      cases rest with
      | nil => simp at h2
      | cons q rest' =>
        constructor
        · rfl
        · show (p :: reduceGo p (q :: rest')).getLast? = (p :: q :: rest').getLast?
          rw [List.getLast?_cons_cons, List.getLast?_cons,
            reduceGo_getLast? p (q :: rest') (List.cons_ne_nil q rest')]
          cases hgl : (q :: rest').getLast? with
          | none => simp at hgl
          | some z => rfl
  · intro p hp
    subst hp
    rfl

/-- Witness for C10 at concrete inputs. -/
theorem reducePoints_endpoints_witness :
    (2 ≤ ([⟨"a", 0, 0⟩, ⟨"b", 5, 0⟩, ⟨"c", 5, 7⟩] : List ControlPoint).length ∧
      (reducePoints [⟨"a", 0, 0⟩, ⟨"b", 5, 0⟩, ⟨"c", 5, 7⟩]).head? =
        ([⟨"a", 0, 0⟩, ⟨"b", 5, 0⟩, ⟨"c", 5, 7⟩] : List ControlPoint).head? ∧
      (reducePoints [⟨"a", 0, 0⟩, ⟨"b", 5, 0⟩, ⟨"c", 5, 7⟩]).getLast? =
        ([⟨"a", 0, 0⟩, ⟨"b", 5, 0⟩, ⟨"c", 5, 7⟩] : List ControlPoint).getLast?) ∧
    reducePoints [⟨"z", 1, 2⟩] = [⟨"z", 1, 2⟩, ⟨"z", 1, 2⟩] := by
  constructor
  · refine ⟨by decide, (reducePoints_endpoints [⟨"a", 0, 0⟩, ⟨"b", 5, 0⟩, ⟨"c", 5, 7⟩]).1 (by decide)⟩
  · exact (reducePoints_endpoints [⟨"z", 1, 2⟩]).2 ⟨"z", 1, 2⟩ rfl

lemma map_x_getD (l : List ControlPoint) (i : ℕ) :
    (l.map fun p => p.x).getD i 0 = (l.getD i dftPoint).x :=
  getD_map_field (fun p => p.x) l i

lemma map_y_getD (l : List ControlPoint) (i : ℕ) :
    (l.map fun p => p.y).getD i 0 = (l.getD i dftPoint).y :=
  getD_map_field (fun p => p.y) l i

lemma mergeClosePoints_getD_x (points : List ControlPoint) (t : ℚ) (i : ℕ) :
    ((mergeClosePoints points t).getD i dftPoint).x =
      (axisOut t [] (points.map fun p => p.x)).getD i 0 := by
  unfold mergeClosePoints
  rw [← mergeRun_map_x t [] []]
  exact (getD_map_field (fun p => p.x) (mergeRun t [] [] points) i).symm

lemma mergeClosePoints_getD_y (points : List ControlPoint) (t : ℚ) (i : ℕ) :
    ((mergeClosePoints points t).getD i dftPoint).y =
      (axisOut t [] (points.map fun p => p.y)).getD i 0 := by
  unfold mergeClosePoints
  rw [← mergeRun_map_y t [] []]
  exact (getD_map_field (fun p => p.y) (mergeRun t [] [] points) i).symm

/-- C4 (amended): coordinate merging is first-seen-wins — each point's
coordinate snaps to the first established representative within the
threshold, so (i) every output coordinate differs from the floor of its input
coordinate by strictly less than the threshold, and (ii) two points whose
coordinates have equal floors always receive the same representative.  (It is
order-dependent: within-threshold pairs may still split and beyond-threshold
pairs may still land together, as the counterexample shows.) -/
theorem merge_first_seen_policy (points : List ControlPoint) (t : ℚ) (ht : 0 < t) :
    (∀ i, i < points.length →
      |((mergeClosePoints points t).getD i dftPoint).x -
          ratFloor ((points.getD i dftPoint).x)| < t ∧
      |((mergeClosePoints points t).getD i dftPoint).y -
          ratFloor ((points.getD i dftPoint).y)| < t) ∧
    (∀ i j, i < points.length → j < points.length →
      (ratFloor ((points.getD i dftPoint).x) = ratFloor ((points.getD j dftPoint).x) →
        ((mergeClosePoints points t).getD i dftPoint).x =
          ((mergeClosePoints points t).getD j dftPoint).x) ∧
      (ratFloor ((points.getD i dftPoint).y) = ratFloor ((points.getD j dftPoint).y) →
        ((mergeClosePoints points t).getD i dftPoint).y =
          ((mergeClosePoints points t).getD j dftPoint).y)) := by
  constructor
  · intro i hi
    constructor
    · rw [mergeClosePoints_getD_x, ← map_x_getD]
      exact axisOut_close t ht [] _ i (by simpa using hi)
    · rw [mergeClosePoints_getD_y, ← map_y_getD]
      exact axisOut_close t ht [] _ i (by simpa using hi)
  · intro i j hi hj
    constructor
    · intro hf
      rcases lt_trichotomy i j with h | h | h
      · rw [mergeClosePoints_getD_x, mergeClosePoints_getD_x]
        refine axisOut_stable t ht [] (points.map fun p => p.x) i j h (by simpa using hj) ?_
        rw [map_x_getD, map_x_getD]
        exact hf
      · rw [h]
      · rw [mergeClosePoints_getD_x, mergeClosePoints_getD_x]
        refine (axisOut_stable t ht [] (points.map fun p => p.x) j i h
          (by simpa using hi) ?_).symm
        rw [map_x_getD, map_x_getD]
        exact hf.symm
    · intro hf
      rcases lt_trichotomy i j with h | h | h
      · rw [mergeClosePoints_getD_y, mergeClosePoints_getD_y]
        refine axisOut_stable t ht [] (points.map fun p => p.y) i j h (by simpa using hj) ?_
        rw [map_y_getD, map_y_getD]
        exact hf
      · rw [h]
      · rw [mergeClosePoints_getD_y, mergeClosePoints_getD_y]
        refine (axisOut_stable t ht [] (points.map fun p => p.y) j i h
          (by simpa using hi) ?_).symm
        rw [map_y_getD, map_y_getD]
        exact hf.symm

/-- Witness for C4 at a concrete input and index. -/
theorem merge_first_seen_policy_witness :
    (0 : ℚ) < 4 ∧ 0 < ([⟨"a", 0, 0⟩, ⟨"b", 3, 0⟩] : List ControlPoint).length ∧
    (|((mergeClosePoints [⟨"a", 0, 0⟩, ⟨"b", 3, 0⟩] 4).getD 0 dftPoint).x -
        ratFloor ((([⟨"a", 0, 0⟩, ⟨"b", 3, 0⟩] : List ControlPoint).getD 0 dftPoint).x)| < 4 ∧
      |((mergeClosePoints [⟨"a", 0, 0⟩, ⟨"b", 3, 0⟩] 4).getD 0 dftPoint).y -
        ratFloor ((([⟨"a", 0, 0⟩, ⟨"b", 3, 0⟩] : List ControlPoint).getD 0 dftPoint).y)| < 4) :=
  ⟨by norm_num, by decide,
    (merge_first_seen_policy [⟨"a", 0, 0⟩, ⟨"b", 3, 0⟩] 4 (by norm_num)).1 0 (by decide)⟩

/-- C4 counterexample: with the default threshold 4, the input `x`-coordinates
`[0, 3, 6]` merge to `[0, 0, 6]` — the pair (3, 6) is within the threshold yet
gets distinct representatives — and `[5, 2, 8]` merges to `[5, 5, 5]` — the
pair (2, 8) is strictly farther apart than the threshold yet shares one. -/
theorem merge_threshold_monotonicity_cex :
    (mergeClosePoints [⟨"a", 0, 0⟩, ⟨"b", 3, 0⟩, ⟨"c", 6, 0⟩] 4).map (fun p => p.x) =
        [0, 0, 6] ∧
    |(3 : ℚ) - 6| ≤ 4 ∧
    (mergeClosePoints [⟨"d", 5, 0⟩, ⟨"e", 2, 0⟩, ⟨"f", 8, 0⟩] 4).map (fun p => p.x) =
        [5, 5, 5] ∧
    (4 : ℚ) < |(2 : ℚ) - 8| := by
  norm_num [mergeClosePoints, mergeRun, findPosition, ratFloor, List.find?]

/-- C9: `mergeClosePoints` is a frame-preserving per-coordinate rewrite — the
output has the same length and order, each output point keeps its input
point's id, and every output coordinate is the floor of some input coordinate
on the same axis. -/
theorem mergeClosePoints_frame (points : List ControlPoint) (t : ℚ) :
    (mergeClosePoints points t).length = points.length ∧
    ∀ i, i < points.length →
      ((mergeClosePoints points t).getD i dftPoint).id = (points.getD i dftPoint).id ∧
      (∃ q ∈ points, ((mergeClosePoints points t).getD i dftPoint).x = ratFloor q.x) ∧
      (∃ q ∈ points, ((mergeClosePoints points t).getD i dftPoint).y = ratFloor q.y) := by
  refine ⟨mergeClosePoints_length points t, ?_⟩
  intro i hi
  have hlen : i < (mergeClosePoints points t).length := by
    rw [mergeClosePoints_length]
    exact hi
  have hmem := getD_mem_of_lt (mergeClosePoints points t) dftPoint i hlen
  refine ⟨?_, ?_, ?_⟩
  · have h1 := getD_map_field (fun p => p.id) (mergeClosePoints points t) i
    have h2 := getD_map_field (fun p => p.id) points i
    unfold mergeClosePoints at h1 ⊢
    rw [mergeRun_map_id] at h1
    exact h1.symm.trans h2
  · have hx : ((mergeClosePoints points t).getD i dftPoint).x ∈
        axisOut t [] (points.map fun p => p.x) := by
      rw [← mergeRun_map_x t [] []]
      exact List.mem_map_of_mem _ hmem
    rcases axisOut_floor t _ _ hx with ⟨v, hv, hveq⟩
    rcases List.mem_map.1 hv with ⟨q, hq, hqv⟩
    exact ⟨q, hq, by rw [hveq, ← hqv]⟩
  · have hy : ((mergeClosePoints points t).getD i dftPoint).y ∈
        axisOut t [] (points.map fun p => p.y) := by
      rw [← mergeRun_map_y t [] []]
      exact List.mem_map_of_mem _ hmem
    rcases axisOut_floor t _ _ hy with ⟨v, hv, hveq⟩
    rcases List.mem_map.1 hv with ⟨q, hq, hqv⟩
    exact ⟨q, hq, by rw [hveq, ← hqv]⟩

/-- Witness for C9 at a concrete input and index. -/
theorem mergeClosePoints_frame_witness :
    0 < exC9.length ∧
    (((mergeClosePoints exC9 4).getD 0 dftPoint).id = (exC9.getD 0 dftPoint).id ∧
      (∃ q ∈ exC9, ((mergeClosePoints exC9 4).getD 0 dftPoint).x = ratFloor q.x) ∧
      (∃ q ∈ exC9, ((mergeClosePoints exC9 4).getD 0 dftPoint).y = ratFloor q.y)) :=
  ⟨by decide, (mergeClosePoints_frame exC9 4).2 0 (by decide)⟩

/-! ### Idempotence of the optimizer (C2) -/

lemma removeRepeatPoints_subset (l : List ControlPoint) :
    ∀ q ∈ removeRepeatPoints l, q ∈ l := by
  unfold removeRepeatPoints
  cases h : l.getLast? with
  | none => simp
  | some lastP => exact rrpGo_subset _ l

lemma removeRepeatPoints_map_key (l : List ControlPoint) (lastP : ControlPoint)
    (h : l.getLast? = some lastP) :
    (removeRepeatPoints l).map pointKey = rrpKeys [pointKey lastP] (l.map pointKey) := by
  unfold removeRepeatPoints
  rw [h, rrpGo_map_key]

lemma mergeClosePoints_coords_mem (l : List ControlPoint) (t : ℚ) :
    ∀ q ∈ mergeClosePoints l t,
      q.x ∈ axisState t [] (l.map fun p => p.x) ∧
      q.y ∈ axisState t [] (l.map fun p => p.y) := by
  intro q hq
  constructor
  · refine axisOut_mem_state t [] _ _ ?_
    rw [← mergeRun_map_x t [] []]
    exact List.mem_map_of_mem _ hq
  · refine axisOut_mem_state t [] _ _ ?_
    rw [← mergeRun_map_y t [] []]
    exact List.mem_map_of_mem _ hq

lemma axisState_nil_int (t : ℚ) (vs : List ℚ) :
    ∀ a ∈ axisState t [] vs, ratFloor a = a := by
  intro a ha
  rcases axisState_mem t [] vs a ha with h | ⟨v, _, hv⟩
  · simp at h
  · rw [hv, ratFloor_ratFloor]

lemma controlPoint_ext (a b : ControlPoint) (h1 : a.id = b.id) (h2 : a.x = b.x)
    (h3 : a.y = b.y) : a = b := by
  cases a
  cases b
  simp_all

lemma getLast_cons_concat {α : Type} (x a : α) (l : List α) :
    (x :: (l ++ [a])).getLast (List.cons_ne_nil x (l ++ [a])) = a := by
  have h1 := List.getLast?_eq_getLast (x :: (l ++ [a])) (List.cons_ne_nil x (l ++ [a]))
  have h2 : (x :: (l ++ [a])).getLast? = some a := by
    rw [show x :: (l ++ [a]) = (x :: l) ++ [a] from rfl, List.getLast?_concat]
  rw [h2] at h1
  exact (Option.some.inj h1).symm

/-- C2: idempotence of the optimizer — feeding the returned source, target,
offsets and edge points back into `optimizeInputPoints` (with the same anchor
positions) reproduces the first run's output exactly. -/
theorem optimize_idempotent (p : OptimizePointsParams) (r : OptimizedPoints)
    (h : optimizeInputPoints p = some r) :
    optimizeInputPoints (feedbackParams p r) = some r := by
  obtain ⟨s0, so, t0, mrest, hd⟩ := list_decomp4 (mergeClosePoints (fullInputList p) 4) (by
    rw [mergeClosePoints_length, fullInputList_length]
    omega)
  rw [optimizeInputPoints_eq_of_decomp p s0 so t0 mrest hd] at h
  have hr := Option.some.inj h
  have hrs : r.source = correctWithAnchor p.source s0 := by rw [← hr]
  have hrt : r.target = correctWithAnchor p.target t0 := by rw [← hr]
  have hrso : r.sourceOffset = so := by rw [← hr]
  have hrto : r.targetOffset = (so :: mrest).getLast (List.cons_ne_nil so mrest) := by
    rw [← hr]
  have hrep : r.edgePoints = renumFrom 0 (removeRepeatPoints (so :: mrest)) := by rw [← hr]
  have hhead : mergeClosePoints (fullInputList p) 4 =
      (⟨p.source.id, ratFloor p.source.x, ratFloor p.source.y⟩ : ControlPoint) ::
        mergeRun 4 [ratFloor p.source.x] [ratFloor p.source.y]
          (p.sourceOffset :: (p.edgePoints ++ [p.targetOffset, p.target.point])) := rfl
  have hlen1 : (mergeClosePoints (fullInputList p) 4).length = p.edgePoints.length + 4 := by
    rw [mergeClosePoints_length, fullInputList_length]
  have hmrest : mrest ≠ [] := by
    intro he
    rw [hd, he] at hlen1
    simp at hlen1
  have hs0 : s0 = ⟨p.source.id, ratFloor p.source.x, ratFloor p.source.y⟩ := by
    have h2 := hd
    rw [hhead] at h2
    injection h2 with h2a h2b
    exact h2a.symm
  have hs0mem : s0 ∈ mergeClosePoints (fullInputList p) 4 := by
    rw [hd]
    exact List.mem_cons_self _ _
  have ht0mem : t0 ∈ mergeClosePoints (fullInputList p) 4 := by
    rw [hd]
    exact List.mem_cons_of_mem _ (List.mem_append_right _ (List.mem_singleton.2 rfl))
  have hmidmem : ∀ q ∈ so :: mrest, q ∈ mergeClosePoints (fullInputList p) 4 := by
    intro q hq
    rw [hd]
    exact List.mem_cons_of_mem _ (List.mem_append_left _ hq)
  have hsepx := axisState_sep 4 [] ((fullInputList p).map fun q => q.x) (sepSet_nil 4)
  have hsepy := axisState_sep 4 [] ((fullInputList p).map fun q => q.y) (sepSet_nil 4)
  have hintx := axisState_nil_int 4 ((fullInputList p).map fun q => q.x)
  have hinty := axisState_nil_int 4 ((fullInputList p).map fun q => q.y)
  have hcm := mergeClosePoints_coords_mem (fullInputList p) 4
  have hmids : ∀ q ∈ r.sourceOffset :: (r.edgePoints ++ [r.targetOffset]),
      (q.x ∈ axisState 4 [] ((fullInputList p).map fun q => q.x) ∧ ratFloor q.x = q.x) ∧
      (q.y ∈ axisState 4 [] ((fullInputList p).map fun q => q.y) ∧ ratFloor q.y = q.y) := by
    intro q hq
    have hqm : ∃ q', q' ∈ mergeClosePoints (fullInputList p) 4 ∧ q.x = q'.x ∧ q.y = q'.y := by
      rcases List.mem_cons.1 hq with h' | h'
      · exact ⟨so, hmidmem so (List.mem_cons_self so mrest), by rw [h', hrso],
          by rw [h', hrso]⟩
      · rcases List.mem_append.1 h' with h'' | h''
        · rw [hrep] at h''
          rcases renumFrom_mem 0 _ q h'' with ⟨q', hq', hx, hy⟩
          exact ⟨q', hmidmem q' (removeRepeatPoints_subset _ q' hq'), hx, hy⟩
        · rw [List.mem_singleton.1 h'', hrto]
          exact ⟨(so :: mrest).getLast (List.cons_ne_nil so mrest),
            hmidmem _ (List.getLast_mem _), rfl, rfl⟩
    rcases hqm with ⟨q', hq', hx, hy⟩
    rcases hcm q' hq' with ⟨hmx, hmy⟩
    rw [hx, hy]
    exact ⟨⟨hmx, hintx _ hmx⟩, ⟨hmy, hinty _ hmy⟩⟩
  have hsrckey : r.source.id = s0.id ∧ ratFloor r.source.x = s0.x ∧
      ratFloor r.source.y = s0.y := by
    cases hpos : isHorizontalFromPosition p.source.position with
    | true =>
      have hsrc : r.source = { s0 with x := p.source.x } := by
        rw [hrs]
        simp [correctWithAnchor, hpos]
      rw [hsrc, hs0]
      exact ⟨rfl, rfl, ratFloor_ratFloor _⟩
    | false =>
      have hsrc : r.source = { s0 with y := p.source.y } := by
        rw [hrs]
        simp [correctWithAnchor, hpos]
      rw [hsrc, hs0]
      exact ⟨rfl, ratFloor_ratFloor _, rfl⟩
  have hfull2 : fullInputList (feedbackParams p r) =
      (⟨r.source.id, r.source.x, r.source.y⟩ : ControlPoint) ::
        ((r.sourceOffset :: (r.edgePoints ++ [r.targetOffset])) ++
          [(⟨r.target.id, r.target.x, r.target.y⟩ : ControlPoint)]) := by
    unfold fullInputList feedbackParams HandlePosition.point
    simp
  have hmids' : mergeRun 4 [s0.x] [s0.y] (r.sourceOffset :: (r.edgePoints ++ [r.targetOffset])) =
        (r.sourceOffset :: (r.edgePoints ++ [r.targetOffset])) ∧
      (∀ a ∈ axisState 4 [s0.x]
          ((r.sourceOffset :: (r.edgePoints ++ [r.targetOffset])).map fun p => p.x),
        a ∈ axisState 4 [] ((fullInputList p).map fun q => q.x)) ∧
      (∀ a ∈ axisState 4 [s0.y]
          ((r.sourceOffset :: (r.edgePoints ++ [r.targetOffset])).map fun p => p.y),
        a ∈ axisState 4 [] ((fullInputList p).map fun q => q.y)) := by
    refine mergeRun_ident 4 _ _ hsepx hsepy [s0.x] [s0.y] ?_ ?_ _ hmids
    · intro a ha
      rw [List.mem_singleton.1 ha]
      exact (hcm s0 hs0mem).1
    · intro a ha
      rw [List.mem_singleton.1 ha]
      exact (hcm s0 hs0mem).2
  have hm2a : mergeClosePoints (fullInputList (feedbackParams p r)) 4 =
      (⟨r.source.id, ratFloor r.source.x, ratFloor r.source.y⟩ : ControlPoint) ::
        mergeRun 4 [ratFloor r.source.x] [ratFloor r.source.y]
          ((r.sourceOffset :: (r.edgePoints ++ [r.targetOffset])) ++
            [(⟨r.target.id, r.target.x, r.target.y⟩ : ControlPoint)]) := by
    unfold mergeClosePoints
    rw [hfull2]
    rfl
  rw [hsrckey.2.1, hsrckey.2.2] at hm2a
  have hfbshead : (⟨r.source.id, s0.x, s0.y⟩ : ControlPoint) = s0 := by
    rw [hsrckey.1]
  rw [hfbshead] at hm2a
  rw [mergeRun_append, hmids'.1] at hm2a
  have hm2b : mergeClosePoints (fullInputList (feedbackParams p r)) 4 =
      s0 :: ((r.sourceOffset ::
          (r.edgePoints ++ [r.targetOffset])) ++
        [(⟨r.target.id,
            (findPosition 4
              (axisState 4 [s0.x]
                ((r.sourceOffset :: (r.edgePoints ++ [r.targetOffset])).map fun q => q.x))
              r.target.x).2,
            (findPosition 4
              (axisState 4 [s0.y]
                ((r.sourceOffset :: (r.edgePoints ++ [r.targetOffset])).map fun q => q.y))
              r.target.y).2⟩ : ControlPoint)]) := by
    rw [hm2a]
    rfl
  have htgtmem : ratFloor t0.x = t0.x ∧
      t0.x ∈ axisState 4 [] ((fullInputList p).map fun q => q.x) ∧
      ratFloor t0.y = t0.y ∧
      t0.y ∈ axisState 4 [] ((fullInputList p).map fun q => q.y) :=
    ⟨hintx _ (hcm t0 ht0mem).1, (hcm t0 ht0mem).1, hinty _ (hcm t0 ht0mem).2,
      (hcm t0 ht0mem).2⟩
  have hfpost : (feedbackParams p r).target.position = p.target.position := rfl
  have hfposs : (feedbackParams p r).source.position = p.source.position := rfl
  have htgt : correctWithAnchor (feedbackParams p r).target
      (⟨r.target.id,
        (findPosition 4
          (axisState 4 [s0.x]
            ((r.sourceOffset :: (r.edgePoints ++ [r.targetOffset])).map fun q => q.x))
          r.target.x).2,
        (findPosition 4
          (axisState 4 [s0.y]
            ((r.sourceOffset :: (r.edgePoints ++ [r.targetOffset])).map fun q => q.y))
          r.target.y).2⟩ : ControlPoint) = r.target := by
    unfold correctWithAnchor
    rw [hfpost]
    cases hpos : isHorizontalFromPosition p.target.position with
    | true =>
      have htv : r.target = { t0 with x := p.target.x } := by
        rw [hrt]
        simp [correctWithAnchor, hpos]
      have hty : r.target.y = t0.y := by rw [htv]
      have hfy := findPosition_self hsepy hmids'.2.2 r.target.y
        (by rw [hty, htgtmem.2.2.1]; exact htgtmem.2.2.2)
      rw [if_pos rfl]
      refine controlPoint_ext _ _ rfl rfl ?_
      show (findPosition 4
          (axisState 4 [s0.y]
            ((r.sourceOffset :: (r.edgePoints ++ [r.targetOffset])).map fun q => q.y))
          r.target.y).2 = r.target.y
      rw [hfy.1, hty]
      exact htgtmem.2.2.1
    | false =>
      have htv : r.target = { t0 with y := p.target.y } := by
        rw [hrt]
        simp [correctWithAnchor, hpos]
      have htx : r.target.x = t0.x := by rw [htv]
      have hfx := findPosition_self hsepx hmids'.2.1 r.target.x
        (by rw [htx, htgtmem.1]; exact htgtmem.2.1)
      rw [if_neg (by simp)]
      refine controlPoint_ext _ _ rfl ?_ rfl
      show (findPosition 4
          (axisState 4 [s0.x]
            ((r.sourceOffset :: (r.edgePoints ++ [r.targetOffset])).map fun q => q.x))
          r.target.x).2 = r.target.x
      rw [hfx.1, htx]
      exact htgtmem.1
  have hsrc2 : correctWithAnchor (feedbackParams p r).source s0 = r.source := by
    unfold correctWithAnchor
    rw [hfposs]
    cases hpos : isHorizontalFromPosition p.source.position with
    | true =>
      have hsv : r.source = { s0 with x := p.source.x } := by
        rw [hrs]
        simp [correctWithAnchor, hpos]
      rw [if_pos rfl]
      refine controlPoint_ext _ _ ?_ rfl ?_
      · rw [hsv]
      · rw [hsv]
    | false =>
      have hsv : r.source = { s0 with y := p.source.y } := by
        rw [hrs]
        simp [correctWithAnchor, hpos]
      rw [if_neg (by simp)]
      refine controlPoint_ext _ _ ?_ ?_ rfl
      · rw [hsv]
      · rw [hsv]
  -- keys of the second de-duplication round
  have hmidsLast : (r.sourceOffset :: (r.edgePoints ++ [r.targetOffset])).getLast? =
      some r.targetOffset := by
    rw [show r.sourceOffset :: (r.edgePoints ++ [r.targetOffset]) =
      (r.sourceOffset :: r.edgePoints) ++ [r.targetOffset] from rfl, List.getLast?_concat]
  have hmidLlast : (so :: mrest).getLast? =
      some ((so :: mrest).getLast (List.cons_ne_nil so mrest)) :=
    List.getLast?_eq_getLast _ _
  have hklkey : pointKey r.targetOffset =
      pointKey ((so :: mrest).getLast (List.cons_ne_nil so mrest)) := by
    rw [hrto]
  have hE : r.edgePoints.map pointKey =
      rrpKeys [pointKey ((so :: mrest).getLast (List.cons_ne_nil so mrest))]
        ((so :: mrest).map pointKey) := by
    rw [hrep, renumFrom_map_key, removeRepeatPoints_map_key _ _ hmidLlast]
  have hkeys2 : (removeRepeatPoints
        (r.sourceOffset :: (r.edgePoints ++ [r.targetOffset]))).map pointKey =
      (removeRepeatPoints (so :: mrest)).map pointKey := by
    rw [removeRepeatPoints_map_key _ _ hmidsLast,
      removeRepeatPoints_map_key _ _ hmidLlast]
    have hmapmids : (r.sourceOffset :: (r.edgePoints ++ [r.targetOffset])).map pointKey =
        (pointKey so ::
            rrpKeys [pointKey ((so :: mrest).getLast (List.cons_ne_nil so mrest))]
              ((so :: mrest).map pointKey)) ++
          [pointKey ((so :: mrest).getLast (List.cons_ne_nil so mrest))] := by
      simp only [List.map_cons, List.map_append, List.map_cons, List.map_nil, hE,
        hklkey, hrso]
      simp
    rw [hklkey, hmapmids]
    have hfeed := rrpKeys_feedback (pointKey so)
      (pointKey ((so :: mrest).getLast (List.cons_ne_nil so mrest)))
      (mrest.map pointKey)
      (by
        intro he
        exact hmrest (List.map_eq_nil_iff.1 he))
      (by
        rw [show pointKey so :: mrest.map pointKey = (so :: mrest).map pointKey from rfl,
          List.getLast?_map, hmidLlast]
        rfl)
    rw [show pointKey so :: mrest.map pointKey = (so :: mrest).map pointKey from rfl] at hfeed
    exact hfeed
  have heps2 : renumFrom 0 (removeRepeatPoints
      (r.sourceOffset :: (r.edgePoints ++ [r.targetOffset]))) = r.edgePoints := by
    rw [renumFrom_congr 0 hkeys2, ← hrep]
  rw [optimizeInputPoints_eq_of_decomp (feedbackParams p r) s0 r.sourceOffset _
    (r.edgePoints ++ [r.targetOffset]) hm2b]
  rw [hsrc2, htgt, heps2, getLast_cons_concat]

/-- Witness for C2 at a concrete input. -/
theorem optimize_idempotent_witness :
    optimizeInputPoints exC2P = some exC2R ∧
    optimizeInputPoints (feedbackParams exC2P exC2R) = some exC2R := by
  have hev : optimizeInputPoints exC2P = some exC2R := by
    norm_num [optimizeInputPoints, mergeClosePoints, mergeRun, findPosition, ratFloor,
      fullInputList, HandlePosition.point, removeRepeatPoints, rrpGo, renumFrom, pointKey,
      correctWithAnchor, isHorizontalFromPosition, List.find?, exC2P, exC2R]
    all_goals decide
  exact ⟨hev, optimize_idempotent exC2P exC2R hev⟩

end AutoLayout
